import Mathlib

set_option autoImplicit false

/-!
Shallow embedding of the yxlib/ai decision-making runtime: a finite-state
machine (fsm.go) with named states, gating actions, an ordered transition
table and a history stack, plus a behavior tree (behavior node file and
agent.go) with action leaves and sequence/select/parallel composites.

External callbacks (state hooks, gating actions, leaf handlers) are modelled
as pure functions; every call the core makes into a callback is recorded in
an observation trace so that ordering and invocation counts can be stated.
-/

/-- The error values declared at the top of fsm.go. -/
inductive FSMError where
  | errNameLenZero
  | errStatNil
  | errActNil
  | errTranNil
  | errTranNotExist
  | errEvtEmpty
  | errNoFirstStat
  | errNoOldStat
  | errFromStatNotExist
  | errToStatNotExist
deriving DecidableEq, Repr

/-- Observable callback invocations made by the FSM core: calls to a state
object's OnEnter/OnUpdate/OnExit hooks and to an action object's DoAction
gate (with the boolean the gate returned). -/
inductive FSMEvent where
  | onEnter (state fromState : String)
  | onUpdate (state : String) (dt : Int)
  | onExit (state toState : String)
  | doAction (action evt : String) (result : Bool)
deriving DecidableEq, Repr

/-- FSMTransition struct of fsm.go. -/
structure FSMTransition where
  From : String
  Event : String
  To : String
  Action : String
deriving DecidableEq, Repr

/-- The FSM struct of fsm.go.  A registered FSMState carries no data beyond
its name (its hooks are observed through the trace), so the states map is
the list of registered names; a registered FSMAction is its gate function
(event to boolean), abstracting the external DoAction callback. -/
structure FSM where
  id : Nat
  state : String
  oldStates : List String
  states : List String
  actions : List (String × (String → Bool))
  transitions : List FSMTransition

/-- FSM.GetCurState. -/
def FSM.getCurState (f : FSM) : String := f.state

/-- FSM.GetState, reduced to the membership test (the only observable). -/
def FSM.getState (f : FSM) (name : String) : Bool := f.states.contains name

/-- FSM.GetAction: map lookup by name. -/
def FSM.getAction (f : FSM) (name : String) : Option (String → Bool) :=
  (f.actions.find? (fun p => p.1 == name)).map (fun p => p.2)

/-- FSM.AddState: empty name is rejected; otherwise insert by name.
(The nil-state check of the Go code has no counterpart here because a
modelled state is just its name.) -/
def FSM.addState (f : FSM) (name : String) : FSM × Option FSMError :=
  if name.length = 0 then (f, some FSMError.errNameLenZero)
  else ({ f with states := name :: f.states }, none)

/-- FSM.AddAction: empty name is rejected; otherwise insert by name
(cons plus first-match lookup gives the map's overwrite semantics). -/
def FSM.addAction (f : FSM) (name : String) (g : String → Bool) :
    FSM × Option FSMError :=
  if name.length = 0 then (f, some FSMError.errNameLenZero)
  else ({ f with actions := (name, g) :: f.actions }, none)

/-- FSM.AddTransition of the slice-based FSM: rejects an empty from with
ErrFromStatNotExist, an empty event with ErrEvtEmpty, an empty to with
ErrToStatNotExist, then appends the new record. -/
def FSM.addTransition (f : FSM) (frm evt toS act : String) :
    FSM × Option FSMError :=
  if frm.length = 0 then (f, some FSMError.errFromStatNotExist)
  else if evt.length = 0 then (f, some FSMError.errEvtEmpty)
  else if toS.length = 0 then (f, some FSMError.errToStatNotExist)
  else ({ f with transitions := f.transitions ++ [⟨frm, evt, toS, act⟩] }, none)

/-- FSM.GetTransition: empty keys find nothing; otherwise first slice entry
matching (From, Event). -/
def FSM.getTransition (f : FSM) (frm evt : String) : Option FSMTransition :=
  if frm.length = 0 then none
  else if evt.length = 0 then none
  else f.transitions.find? (fun t => t.From == frm && t.Event == evt)

/-- FSM.Start: empty name fails with ErrNoFirstStat; a registered name
becomes current and its OnEnter hook is called with an empty from-state;
an unregistered name does nothing and reports no error. -/
def FSM.start (f : FSM) (firstState : String) :
    FSM × List FSMEvent × Option FSMError :=
  if firstState.length = 0 then (f, [], some FSMError.errNoFirstStat)
  else if f.getState firstState then
    ({ f with state := firstState }, [FSMEvent.onEnter firstState ""], none)
  else (f, [], none)

/-- FSM.Update: dispatch OnUpdate to the current state when registered. -/
def FSM.update (f : FSM) (dt : Int) : FSM × List FSMEvent :=
  if f.getState f.state then (f, [FSMEvent.onUpdate f.state dt]) else (f, [])

/-- FSM.Trigger: validate event and current state, look up the transition,
resolve both states, consult the gating action when registered (returning
success with no further effect when it vetoes), then run OnExit before
OnEnter, push the old state on the history stack and switch state. -/
def FSM.trigger (f : FSM) (evt : String) :
    FSM × List FSMEvent × Option FSMError :=
  if evt.length = 0 then (f, [], some FSMError.errEvtEmpty)
  else if f.state.length = 0 then (f, [], some FSMError.errNoFirstStat)
  else
    match f.getTransition f.state evt with
    | none => (f, [], some FSMError.errTranNotExist)
    | some tran =>
      if f.getState f.state then
        if f.getState tran.To then
          match f.getAction tran.Action with
          | some act =>
            if act evt then
              ({ f with state := tran.To, oldStates := f.oldStates ++ [f.state] },
               [FSMEvent.doAction tran.Action evt true,
                FSMEvent.onExit f.state tran.To,
                FSMEvent.onEnter tran.To f.state], none)
            else
              (f, [FSMEvent.doAction tran.Action evt false], none)
          | none =>
            ({ f with state := tran.To, oldStates := f.oldStates ++ [f.state] },
             [FSMEvent.onExit f.state tran.To,
              FSMEvent.onEnter tran.To f.state], none)
        else (f, [], some FSMError.errToStatNotExist)
      else (f, [], some FSMError.errFromStatNotExist)

/-- FSM.PopState: empty history fails with ErrNoOldStat; then the current
state and the top-of-stack target must be registered; OnExit of the current
state precedes OnEnter of the target, the target becomes current and is
removed from the stack. -/
def FSM.popState (f : FSM) : FSM × List FSMEvent × Option FSMError :=
  match f.oldStates.getLast? with
  | none => (f, [], some FSMError.errNoOldStat)
  | some target =>
    if f.getState f.state then
      if f.getState target then
        ({ f with state := target, oldStates := f.oldStates.dropLast },
         [FSMEvent.onExit f.state target, FSMEvent.onEnter target f.state],
         none)
      else (f, [], some FSMError.errToStatNotExist)
    else (f, [], some FSMError.errFromStatNotExist)

/-- The gate clears the transition: either no action is registered under the
transition's action name, or the registered gate returns true on the event. -/
def FSM.gateOk (f : FSM) (tran : FSMTransition) (evt : String) : Prop :=
  match f.getAction tran.Action with
  | none => True
  | some g => g evt = true

/-- Trace contribution of the gate on a successful (non-vetoed) trigger. -/
def FSM.gateTrace (f : FSM) (tran : FSMTransition) (evt : String) :
    List FSMEvent :=
  match f.getAction tran.Action with
  | none => []
  | some _ => [FSMEvent.doAction tran.Action evt true]

theorem FSM.getTransition_some_ne (f : FSM) (a b : String) (t : FSMTransition)
    (h : f.getTransition a b = some t) : a.length ≠ 0 ∧ b.length ≠ 0 := by
  unfold FSM.getTransition at h
  by_cases ha : a.length = 0
  · simp [ha] at h
  · by_cases hb : b.length = 0
    · simp [ha, hb] at h
    · exact ⟨ha, hb⟩

/-- A matched, state-resolved, gate-cleared trigger performs the transition:
gate trace first, then OnExit of the old state, then OnEnter of the new state
with the old state as argument; the old state is appended to the history
stack and the current state becomes the target. -/
theorem FSM.trigger_success (f : FSM) (evt : String) (tran : FSMTransition)
    (h1 : f.getTransition f.state evt = some tran)
    (h2 : f.getState f.state = true)
    (h3 : f.getState tran.To = true)
    (h4 : f.gateOk tran evt) :
    f.trigger evt =
      ({ f with state := tran.To, oldStates := f.oldStates ++ [f.state] },
       f.gateTrace tran evt ++
         [FSMEvent.onExit f.state tran.To, FSMEvent.onEnter tran.To f.state],
       none) := by
  obtain ⟨hs, he⟩ := f.getTransition_some_ne _ _ _ h1
  unfold FSM.trigger
  cases hg : f.getAction tran.Action with
  | none =>
    unfold FSM.gateTrace
    simp [he, hs, h1, h2, h3, hg]
  | some g =>
    unfold FSM.gateOk at h4
    rw [hg] at h4
    unfold FSM.gateTrace
    simp [he, hs, h1, h2, h3, hg, h4]

/-- Claim C1: when the transition matched by (currentState, event) names a
registered gating action and the gate returns false, Trigger reports no
error, leaves the FSM (current state and history stack) unchanged, invokes
no OnExit or OnEnter hook, and invokes the gate exactly once. -/
theorem claimC1_trigger_veto (f : FSM) (evt : String) (tran : FSMTransition)
    (g : String → Bool)
    (h1 : f.getTransition f.state evt = some tran)
    (h2 : f.getState f.state = true)
    (h3 : f.getState tran.To = true)
    (h4 : f.getAction tran.Action = some g)
    (h5 : g evt = false) :
    f.trigger evt = (f, [FSMEvent.doAction tran.Action evt false], none) := by
  obtain ⟨hs, he⟩ := f.getTransition_some_ne _ _ _ h1
  unfold FSM.trigger
  simp [he, hs, h1, h2, h3, h4, h5]

def gateFalse : String → Bool := fun _ => false

def fsmC1 : FSM :=
  { id := 1, state := "A", oldStates := [], states := ["A", "B"],
    actions := [("gate", gateFalse)],
    transitions := [⟨"A", "go", "B", "gate"⟩] }

theorem claimC1_witness :
    fsmC1.trigger "go" = (fsmC1, [FSMEvent.doAction "gate" "go" false], none) :=
  claimC1_trigger_veto fsmC1 "go" ⟨"A", "go", "B", "gate"⟩ gateFalse
    rfl rfl rfl rfl rfl

/-- Claim C5: a matching transition whose gate does not veto makes Trigger
call the old state's OnExit (with the target name) strictly before the new
state's OnEnter (with the old state name), push the old state name onto the
history stack, set the current state to the target, and return no error. -/
theorem claimC5_trigger_transition (f : FSM) (evt : String)
    (tran : FSMTransition)
    (h1 : f.getTransition f.state evt = some tran)
    (h2 : f.getState f.state = true)
    (h3 : f.getState tran.To = true)
    (h4 : f.gateOk tran evt) :
    f.trigger evt =
      ({ f with state := tran.To, oldStates := f.oldStates ++ [f.state] },
       f.gateTrace tran evt ++
         [FSMEvent.onExit f.state tran.To, FSMEvent.onEnter tran.To f.state],
       none) :=
  FSM.trigger_success f evt tran h1 h2 h3 h4

def gateTrue : String → Bool := fun _ => true

def fsmC5 : FSM :=
  { id := 5, state := "A", oldStates := [], states := ["A", "B"],
    actions := [("gate", gateTrue)],
    transitions := [⟨"A", "go", "B", "gate"⟩] }

theorem claimC5_witness :
    fsmC5.trigger "go" =
      ({ fsmC5 with state := "B", oldStates := ["A"] },
       [FSMEvent.doAction "gate" "go" true, FSMEvent.onExit "A" "B",
        FSMEvent.onEnter "B" "A"], none) :=
  claimC5_trigger_transition fsmC5 "go" ⟨"A", "go", "B", "gate"⟩
    rfl rfl rfl rfl

/-- Claim C9 (as stated): Start fails with ErrNoFirstStat exactly when the
name is empty; a registered name becomes current with its OnEnter called
once with an empty from-state; a non-empty unregistered name changes
nothing and reports no error. -/
theorem claimC9_start_spec (f : FSM) (s : String) :
    (s.length = 0 → f.start s = (f, [], some FSMError.errNoFirstStat)) ∧
    (s.length ≠ 0 → f.getState s = true →
      f.start s = ({ f with state := s }, [FSMEvent.onEnter s ""], none)) ∧
    (s.length ≠ 0 → f.getState s = false → f.start s = (f, [], none)) ∧
    ((f.start s).2.2 = some FSMError.errNoFirstStat ↔ s.length = 0) := by
  unfold FSM.start
  by_cases h : s.length = 0
  · simp [h]
  · cases hg : f.getState s with
    | false => simp [h, hg]
    | true => simp [h, hg]

def fsmEmptyC9 : FSM :=
  { id := 9, state := "", oldStates := [], states := [], actions := [],
    transitions := [] }

def fsmC9 : FSM := (fsmEmptyC9.addState "A").1

theorem claimC9_witness :
    fsmC9.start "A" =
        ({ fsmC9 with state := "A" }, [FSMEvent.onEnter "A" ""], none) ∧
    fsmC9.start "" = (fsmC9, [], some FSMError.errNoFirstStat) ∧
    fsmC9.start "C" = (fsmC9, [], none) :=
  ⟨(claimC9_start_spec fsmC9 "A").2.1 (by decide) rfl,
   (claimC9_start_spec fsmC9 "").1 rfl,
   (claimC9_start_spec fsmC9 "C").2.2.1 (by decide) rfl⟩

/-- Claim C6: PopState fails with ErrNoOldStat on an empty history stack;
with both the current state and the top-of-stack target registered it runs
OnExit of the current state, then OnEnter of the target with the current
state as argument, makes the target current and removes it from the stack
(pushing nothing); it fails with ErrFromStatNotExist when the current state
is unregistered and ErrToStatNotExist when the target is unregistered; and
after one successful Trigger from an empty history, one PopState restores
the original state with an empty stack, so a second PopState fails with
ErrNoOldStat. -/
theorem claimC6_popState_spec (f : FSM) :
    (f.oldStates = [] → f.popState = (f, [], some FSMError.errNoOldStat)) ∧
    (∀ init T, f.oldStates = init ++ [T] → f.getState f.state = true →
      f.getState T = true →
      f.popState = ({ f with state := T, oldStates := init },
        [FSMEvent.onExit f.state T, FSMEvent.onEnter T f.state], none)) ∧
    (f.oldStates ≠ [] → f.getState f.state = false →
      f.popState = (f, [], some FSMError.errFromStatNotExist)) ∧
    (∀ init T, f.oldStates = init ++ [T] → f.getState f.state = true →
      f.getState T = false →
      f.popState = (f, [], some FSMError.errToStatNotExist)) ∧
    (∀ evt tran, f.oldStates = [] → f.getTransition f.state evt = some tran →
      f.getState f.state = true → f.getState tran.To = true →
      f.gateOk tran evt →
      (f.trigger evt).1.oldStates = [f.state] ∧
      ((f.trigger evt).1.popState).1.state = f.state ∧
      ((f.trigger evt).1.popState).1.oldStates = [] ∧
      (((f.trigger evt).1.popState).1.popState).2.2 =
        some FSMError.errNoOldStat) := by
  refine ⟨fun h => ?_, fun init T h h2 h3 => ?_, fun h h2 => ?_,
    fun init T h h2 h3 => ?_, fun evt tran hE h1 h2 h3 h4 => ?_⟩
  · unfold FSM.popState
    rw [h]
    rfl
  · unfold FSM.popState
    rw [h]
    simp [List.getLast?_concat, List.dropLast_concat, h2, h3]
  · rcases List.eq_nil_or_concat f.oldStates with hO | ⟨init, T, hO⟩
    · exact absurd hO h
    · unfold FSM.popState
      rw [hO]
      simp [List.getLast?_concat, h2]
  · unfold FSM.popState
    rw [h]
    simp [List.getLast?_concat, h2, h3]
  · have htr := FSM.trigger_success f evt tran h1 h2 h3 h4
    rw [htr, hE]
    simp only [List.nil_append]
    have hpop : ({ f with state := tran.To, oldStates := [f.state] } : FSM).popState =
        ({ f with state := f.state, oldStates := [] },
         [FSMEvent.onExit tran.To f.state, FSMEvent.onEnter f.state tran.To],
         none) := by
      unfold FSM.popState
      simp [FSM.getState] at h2 h3
      simp [FSM.getState, h2, h3]
    rw [hpop]
    refine ⟨by trivial, by trivial, by trivial, ?_⟩
    unfold FSM.popState
    rfl

def fsmC6 : FSM :=
  { id := 6, state := "A", oldStates := [], states := ["A", "B"],
    actions := [], transitions := [⟨"A", "go", "B", ""⟩] }

theorem claimC6_witness :
    (fsmC6.trigger "go").1.oldStates = ["A"] ∧
    ((fsmC6.trigger "go").1.popState).1.state = "A" ∧
    ((fsmC6.trigger "go").1.popState).1.oldStates = [] ∧
    (((fsmC6.trigger "go").1.popState).1.popState).2.2 =
      some FSMError.errNoOldStat :=
  (claimC6_popState_spec fsmC6).2.2.2.2 "go" ⟨"A", "go", "B", ""⟩
    rfl rfl rfl rfl True.intro

def fsmC8 : FSM :=
  { id := 8, state := "A", oldStates := [], states := [], actions := [],
    transitions := [⟨"A", "go", "B", ""⟩] }

/-- Claim C8 counterexample: AddTransition with an empty from (or to) does
not fail with a dedicated empty-from (empty-to) error kind: it returns
ErrFromStatNotExist (ErrToStatNotExist), the very same error kind that
Trigger returns when the from state is not registered. -/
theorem claimC8_counterexample :
    (fsmC8.addTransition "" "go" "B" "").2 = some FSMError.errFromStatNotExist ∧
    (fsmC8.addTransition "A" "go" "" "").2 = some FSMError.errToStatNotExist ∧
    (fsmC8.trigger "go").2.2 = some FSMError.errFromStatNotExist :=
  ⟨rfl, rfl, rfl⟩

/-- Claim C8 as amended: AddTransition fails with ErrFromStatNotExist (the
FromStateNotFound kind) when from is empty, ErrEvtEmpty when the event is
empty, and ErrToStatNotExist (the ToStateNotFound kind) when to is empty;
any action string (including the empty one) is accepted, and on success the
record is appended without checking that from or to name registered states. -/
theorem claimC8_addTransition_spec (f : FSM) (frm evt toS act : String) :
    (frm.length = 0 →
      f.addTransition frm evt toS act =
        (f, some FSMError.errFromStatNotExist)) ∧
    (frm.length ≠ 0 → evt.length = 0 →
      f.addTransition frm evt toS act = (f, some FSMError.errEvtEmpty)) ∧
    (frm.length ≠ 0 → evt.length ≠ 0 → toS.length = 0 →
      f.addTransition frm evt toS act =
        (f, some FSMError.errToStatNotExist)) ∧
    (frm.length ≠ 0 → evt.length ≠ 0 → toS.length ≠ 0 →
      f.addTransition frm evt toS act =
        ({ f with transitions := f.transitions ++ [⟨frm, evt, toS, act⟩] },
         none)) := by
  unfold FSM.addTransition
  exact ⟨fun h => by simp [h],
    fun h1 h2 => by simp [h1, h2],
    fun h1 h2 h3 => by simp [h1, h2, h3],
    fun h1 h2 h3 => by simp [h1, h2, h3]⟩

theorem claimC8_witness :
    fsmC8.addTransition "A" "stop" "C" "" =
      ({ fsmC8 with
          transitions := fsmC8.transitions ++ [⟨"A", "stop", "C", ""⟩] },
       none) :=
  (claimC8_addTransition_spec fsmC8 "A" "stop" "C" "").2.2.2
    (by decide) (by decide) (by decide)

/-- BNodeState of the behavior node file. -/
inductive BNodeState where
  | notExecute
  | executing
  | succ
  | fail
deriving DecidableEq, Repr

/-- The composite node kinds (BNODE_TYPE_SEQUENCE / SELECT / PARALLEL). -/
inductive CompType where
  | sequence
  | select
  | parallel
deriving DecidableEq, Repr

/-- A behavior node: either an AgentBNode leaf (agent.go) whose listener is
abstracted as a pure function from the node's current state to the state it
returns (none models a nil listener), or a ControlNode composite with its
ordered children.  Both variants carry the BaseBehaviorNode fields nodeId,
state, step and maxStep; the leaf also carries actionId. -/
inductive BNode where
  | action (nodeId actionId : Nat) (state : BNodeState) (step maxStep : Nat)
      (listener : Option (BNodeState → BNodeState))
  | control (nodeId : Nat) (ctype : CompType) (state : BNodeState)
      (step maxStep : Nat) (children : List BNode)

/-- BaseBehaviorNode.GetState. -/
def BNode.getState : BNode → BNodeState
  | BNode.action _ _ st _ _ _ => st
  | BNode.control _ _ st _ _ _ => st

/-- BaseBehaviorNode.GetID. -/
def BNode.getID : BNode → Nat
  | BNode.action i _ _ _ _ _ => i
  | BNode.control i _ _ _ _ _ => i

/-- BaseBehaviorNode.GetStep. -/
def BNode.getStep : BNode → Nat
  | BNode.action _ _ _ s _ _ => s
  | BNode.control _ _ _ s _ _ => s

/-- BaseBehaviorNode.IsCompleted on a state value: Succeeded or Failed. -/
def BNodeState.isCompleted : BNodeState → Bool
  | BNodeState.succ => true
  | BNodeState.fail => true
  | _ => false

/-- BaseBehaviorNode.IsCompleted. -/
def BNode.isCompleted (n : BNode) : Bool := n.getState.isCompleted

mutual

/-- Execute of a behavior node, returning the updated node and the trace of
leaf node ids whose listener was invoked this call.  The leaf case is
AgentBNode.Execute (invoke the listener when present and store the returned
state); composites follow SequenceNode / SelectNode / ParallelNode.Execute:
return unchanged when completed, otherwise set state Executing and walk the
children per kind. -/
def BNode.execute : BNode → BNode × List Nat
  | BNode.action nodeId actionId st step maxStep listener =>
    match listener with
    | some h =>
      (BNode.action nodeId actionId (h st) step maxStep (some h), [nodeId])
    | none => (BNode.action nodeId actionId st step maxStep none, [])
  | BNode.control nodeId ctype st step maxStep children =>
    if st.isCompleted then
      (BNode.control nodeId ctype st step maxStep children, [])
    else
      match ctype with
      | CompType.sequence =>
        let r := execSeqChildren (children.length - 1) 0 children
        (BNode.control nodeId CompType.sequence r.2.1 step maxStep r.1, r.2.2)
      | CompType.select =>
        let r := execSelChildren (children.length - 1) 0 children
        (BNode.control nodeId CompType.select r.2.1 step maxStep r.1, r.2.2)
      | CompType.parallel =>
        let r := execParChildren children
        let st1 := if r.2.2.1 then BNodeState.fail
          else if r.2.1 then BNodeState.succ else BNodeState.executing
        (BNode.control nodeId CompType.parallel st1 step maxStep r.1, r.2.2.2)

/-- The child loop of SequenceNode.Execute: skip completed children,
execute the first non-completed one and stop; the node stays Executing if
that child stays incomplete, Fails if the child Failed, Succeeds if the
child was the last one, and stays Executing otherwise. -/
def execSeqChildren (lastIdx i : Nat) :
    List BNode → List BNode × BNodeState × List Nat
  | [] => ([], BNodeState.executing, [])
  | c :: rest =>
    if c.isCompleted then
      let r := execSeqChildren lastIdx (i + 1) rest
      (c :: r.1, r.2.1, r.2.2)
    else
      let e := c.execute
      if e.1.isCompleted then
        if e.1.getState = BNodeState.fail then
          (e.1 :: rest, BNodeState.fail, e.2)
        else if i = lastIdx then (e.1 :: rest, BNodeState.succ, e.2)
        else (e.1 :: rest, BNodeState.executing, e.2)
      else (e.1 :: rest, BNodeState.executing, e.2)

/-- The child loop of SelectNode.Execute: mirror of the sequence loop with
the success and failure polarity swapped. -/
def execSelChildren (lastIdx i : Nat) :
    List BNode → List BNode × BNodeState × List Nat
  | [] => ([], BNodeState.executing, [])
  | c :: rest =>
    if c.isCompleted then
      let r := execSelChildren lastIdx (i + 1) rest
      (c :: r.1, r.2.1, r.2.2)
    else
      let e := c.execute
      if e.1.isCompleted then
        if e.1.getState = BNodeState.succ then
          (e.1 :: rest, BNodeState.succ, e.2)
        else if i = lastIdx then (e.1 :: rest, BNodeState.fail, e.2)
        else (e.1 :: rest, BNodeState.executing, e.2)
      else (e.1 :: rest, BNodeState.executing, e.2)

/-- The child loop of ParallelNode.Execute, returning the updated children,
the bFinish flag (no executed child left incomplete), whether a freshly
executed child Failed (which stops the loop), and the trace. -/
def execParChildren : List BNode → List BNode × Bool × Bool × List Nat
  | [] => ([], true, false, [])
  | c :: rest =>
    if c.isCompleted then
      let r := execParChildren rest
      (c :: r.1, r.2.1, r.2.2.1, r.2.2.2)
    else
      let e := c.execute
      if e.1.isCompleted then
        if e.1.getState = BNodeState.fail then (e.1 :: rest, true, true, e.2)
        else
          let r := execParChildren rest
          (e.1 :: r.1, r.2.1, r.2.2.1, e.2 ++ r.2.2.2)
      else
        let r := execParChildren rest
        (e.1 :: r.1, false, r.2.2.1, e.2 ++ r.2.2.2)

end

/-- One parallel-loop visit of a child: completed children are skipped,
the others are executed. -/
def parChildStep (c : BNode) : BNode × List Nat :=
  if c.isCompleted then (c, []) else c.execute

/-- A child that the parallel loop freshly fails on: it was not completed,
and executing it leaves it in the Failed state. -/
def freshlyFails (c : BNode) : Prop :=
  c.isCompleted = false ∧ (c.execute).1.getState = BNodeState.fail

/-- BehaviorTree struct: an id and the root node. -/
structure BehaviorTree where
  treeId : Nat
  rootNode : BNode

def BTREE_ROOT_NODE_ID : Nat := 1

/-- NewSequenceNode by way of NewControlNode: NotExecuted, step 0, maxStep 0,
no children. -/
def newSequenceNode (nodeId : Nat) : BNode :=
  BNode.control nodeId CompType.sequence BNodeState.notExecute 0 0 []

/-- NewBehaviorTree: the root is a fresh SequenceNode with the reserved id. -/
def newBehaviorTree (treeId : Nat) : BehaviorTree :=
  { treeId := treeId, rootNode := newSequenceNode BTREE_ROOT_NODE_ID }

/-- BehaviorTree.Execute delegates to the root node. -/
def BehaviorTree.execute (t : BehaviorTree) : BehaviorTree × List Nat :=
  ({ t with rootNode := (t.rootNode.execute).1 }, (t.rootNode.execute).2)

/-- BehaviorTree.GetState delegates to the root node. -/
def BehaviorTree.getState (t : BehaviorTree) : BNodeState :=
  t.rootNode.getState

/-- BehaviorTree.IsCompleted delegates to the root node. -/
def BehaviorTree.isCompleted (t : BehaviorTree) : Bool :=
  t.rootNode.isCompleted

/-- k consecutive ticks of a single node. -/
def BNode.execN : Nat → BNode → BNode
  | 0, n => n
  | k + 1, n => BNode.execN k (n.execute).1

/-- k consecutive ticks of a tree. -/
def BehaviorTree.execN : Nat → BehaviorTree → BehaviorTree
  | 0, t => t
  | k + 1, t => BehaviorTree.execN k (t.execute).1

/-- The sequence/select child loop leaves an all-completed prefix in place
and continues behind it with the index advanced. -/
theorem execSeqChildren_skip (lastIdx i : Nat) (done l : List BNode)
    (hdone : ∀ c ∈ done, c.isCompleted = true) :
    execSeqChildren lastIdx i (done ++ l) =
      (done ++ (execSeqChildren lastIdx (i + done.length) l).1,
       (execSeqChildren lastIdx (i + done.length) l).2) := by
  induction done generalizing i with
  | nil => simp
  | cons c cs ih =>
    have hc : c.isCompleted = true := hdone c (by simp)
    have hcs : ∀ x ∈ cs, x.isCompleted = true := fun x hx => hdone x (by simp [hx])
    simp only [List.cons_append]
    rw [execSeqChildren]
    simp only [hc, if_true]
    rw [ih (i + 1) hcs]
    have harith : i + 1 + cs.length = i + (cs.length + 1) := by omega
    simp [harith]

/-- Claim C2: a not-yet-completed sequence node executes exactly the first
non-completed child this tick (completed children before it are kept, later
children untouched); its state becomes Executing if that child stays
incomplete, Failed if the child just Failed, Succeeded if the child just
Succeeded and was the last child, and Executing otherwise. -/
theorem claimC2_sequence_execute (nodeId : Nat) (st : BNodeState)
    (step maxStep : Nat) (done : List BNode) (c : BNode) (rest : List BNode)
    (hst : st.isCompleted = false)
    (hdone : ∀ x ∈ done, x.isCompleted = true)
    (hc : c.isCompleted = false) :
    BNode.execute
        (BNode.control nodeId CompType.sequence st step maxStep
          (done ++ c :: rest)) =
      (BNode.control nodeId CompType.sequence
        (if (c.execute).1.isCompleted = false then BNodeState.executing
         else if (c.execute).1.getState = BNodeState.fail then BNodeState.fail
         else if rest.length = 0 then BNodeState.succ
         else BNodeState.executing)
        step maxStep (done ++ (c.execute).1 :: rest),
       (c.execute).2) := by
  rw [BNode.execute]
  simp only [hst, Bool.false_eq_true, if_false]
  have hL : (done ++ c :: rest).length - 1 = done.length + rest.length := by
    simp [List.length_append, List.length_cons]
  rw [hL, execSeqChildren_skip _ 0 done (c :: rest) hdone]
  rw [execSeqChildren]
  simp only [hc, Bool.false_eq_true, if_false]
  cases hcomp : (c.execute).1.isCompleted with
  | false => simp [hcomp]
  | true =>
    by_cases hfail : (c.execute).1.getState = BNodeState.fail
    · simp [hcomp, hfail]
    · by_cases hrest : rest.length = 0
      · have hnil : rest = [] := List.length_eq_zero.mp hrest
        subst hnil
        simp [hcomp, hfail]
      · have hne : 0 + done.length ≠ done.length + rest.length := by omega
        simp [hcomp, hfail, hne, hrest]

def handlerSucc : BNodeState → BNodeState := fun _ => BNodeState.succ

def handlerFail : BNodeState → BNodeState := fun _ => BNodeState.fail

def handlerExec : BNodeState → BNodeState := fun _ => BNodeState.executing

/-- A fresh leaf whose handler always reports Succeeded. -/
def leafSucc (i : Nat) : BNode :=
  BNode.action i i BNodeState.notExecute 0 0 (some handlerSucc)

/-- A fresh leaf whose handler always reports Failed. -/
def leafFail (i : Nat) : BNode :=
  BNode.action i i BNodeState.notExecute 0 0 (some handlerFail)

/-- A fresh leaf whose handler always reports Executing. -/
def leafExec (i : Nat) : BNode :=
  BNode.action i i BNodeState.notExecute 0 0 (some handlerExec)

theorem claimC2_witness :
    BNode.execute (BNode.control 9 CompType.sequence BNodeState.notExecute 0 0
        [leafSucc 1, leafSucc 2, leafSucc 3]) =
      (BNode.control 9 CompType.sequence BNodeState.executing 0 0
        [BNode.action 1 1 BNodeState.succ 0 0 (some handlerSucc),
         leafSucc 2, leafSucc 3],
       [1]) :=
  claimC2_sequence_execute 9 BNodeState.notExecute 0 0 [] (leafSucc 1)
    [leafSucc 2, leafSucc 3] rfl
    (fun x hx => absurd hx (List.not_mem_nil x)) rfl

/-- The parallel child loop when no child freshly fails: every
non-completed child is executed in order, the failure flag stays clear, and
the finished flag records whether every visited child ended completed. -/
theorem execParChildren_no_fail (l : List BNode)
    (h : ∀ c ∈ l, ¬ freshlyFails c) :
    execParChildren l =
      (l.map (fun c => (parChildStep c).1),
       l.all (fun c => (parChildStep c).1.isCompleted),
       false,
       (l.map (fun c => (parChildStep c).2)).flatten) := by
  induction l with
  | nil => rfl
  | cons c rest ih =>
    have hc := h c (by simp)
    have hrest : ∀ x ∈ rest, ¬ freshlyFails x := fun x hx => h x (by simp [hx])
    rw [execParChildren]
    cases hcomp : c.isCompleted with
    | true =>
      simp only [if_true, ih hrest]
      simp [parChildStep, hcomp]
    | false =>
      simp only [Bool.false_eq_true, if_false]
      have hne : (c.execute).1.getState ≠ BNodeState.fail := by
        intro hf
        exact hc ⟨hcomp, hf⟩
      cases hdone : (c.execute).1.isCompleted with
      | true =>
        simp only [hdone, if_true, hne, Bool.false_eq_true, if_false,
          ih hrest]
        simp [parChildStep, hcomp, hdone, hne]
      | false =>
        simp only [hdone, Bool.false_eq_true, if_false, ih hrest]
        simp [parChildStep, hcomp, hdone]

/-- The parallel child loop when the first freshly failing child is
reached: the loop stops there, all the children after it are left exactly
as they were and contribute nothing to the trace. -/
theorem execParChildren_fail (pre : List BNode) (cf : BNode)
    (post : List BNode)
    (hpre : ∀ c ∈ pre, ¬ freshlyFails c)
    (hf : freshlyFails cf) :
    execParChildren (pre ++ cf :: post) =
      (pre.map (fun c => (parChildStep c).1) ++ (cf.execute).1 :: post,
       pre.all (fun c => (parChildStep c).1.isCompleted),
       true,
       (pre.map (fun c => (parChildStep c).2)).flatten ++ (cf.execute).2) := by
  obtain ⟨hf1, hf2⟩ := hf
  induction pre with
  | nil =>
    simp only [List.nil_append]
    rw [execParChildren]
    have hdone : (cf.execute).1.isCompleted = true := by
      unfold BNode.isCompleted
      rw [hf2]
      rfl
    simp [hf1, hf2, hdone]
  | cons c cs ih =>
    have hc := hpre c (by simp)
    have hcs : ∀ x ∈ cs, ¬ freshlyFails x := fun x hx => hpre x (by simp [hx])
    simp only [List.cons_append]
    rw [execParChildren]
    cases hcomp : c.isCompleted with
    | true =>
      simp only [if_true, ih hcs]
      simp [parChildStep, hcomp]
    | false =>
      simp only [Bool.false_eq_true, if_false]
      have hne : (c.execute).1.getState ≠ BNodeState.fail := by
        intro hx
        exact hc ⟨hcomp, hx⟩
      cases hdone : (c.execute).1.isCompleted with
      | true =>
        simp only [hdone, if_true, hne, Bool.false_eq_true, if_false, ih hcs]
        simp [parChildStep, hcomp, hdone]
      | false =>
        simp only [hdone, Bool.false_eq_true, if_false, ih hcs]
        simp [parChildStep, hcomp, hdone]

/-- Claim C3: a not-yet-completed parallel node ticks all non-completed
children in order.  If the loop reaches a child that freshly Fails, the
node Fails on the spot and the children after that one are neither changed
nor executed this tick; if no child freshly Fails and every child ends the
loop completed, the node Succeeds; if no child freshly Fails but some child
is still incomplete, the node stays Executing. -/
theorem claimC3_parallel_execute (nodeId : Nat) (st : BNodeState)
    (step maxStep : Nat) (children : List BNode)
    (hst : st.isCompleted = false) :
    (∀ pre cf post, children = pre ++ cf :: post →
      (∀ c ∈ pre, ¬ freshlyFails c) → freshlyFails cf →
      BNode.execute
          (BNode.control nodeId CompType.parallel st step maxStep children) =
        (BNode.control nodeId CompType.parallel BNodeState.fail step maxStep
          (pre.map (fun c => (parChildStep c).1) ++ (cf.execute).1 :: post),
         (pre.map (fun c => (parChildStep c).2)).flatten ++ (cf.execute).2)) ∧
    ((∀ c ∈ children, ¬ freshlyFails c) →
      (∀ c ∈ children, (parChildStep c).1.isCompleted = true) →
      BNode.execute
          (BNode.control nodeId CompType.parallel st step maxStep children) =
        (BNode.control nodeId CompType.parallel BNodeState.succ step maxStep
          (children.map (fun c => (parChildStep c).1)),
         (children.map (fun c => (parChildStep c).2)).flatten)) ∧
    ((∀ c ∈ children, ¬ freshlyFails c) →
      (∃ c ∈ children, (parChildStep c).1.isCompleted = false) →
      BNode.execute
          (BNode.control nodeId CompType.parallel st step maxStep children) =
        (BNode.control nodeId CompType.parallel BNodeState.executing step
          maxStep (children.map (fun c => (parChildStep c).1)),
         (children.map (fun c => (parChildStep c).2)).flatten)) := by
  refine ⟨fun pre cf post hsplit hpre hcf => ?_, fun hno hall => ?_,
    fun hno hex => ?_⟩
  · rw [BNode.execute]
    simp only [hst, Bool.false_eq_true, if_false]
    rw [hsplit, execParChildren_fail pre cf post hpre hcf]
    simp
  · rw [BNode.execute]
    simp only [hst, Bool.false_eq_true, if_false]
    rw [execParChildren_no_fail children hno]
    have hallb : children.all (fun c => (parChildStep c).1.isCompleted) = true := by
      rw [List.all_eq_true]
      exact hall
    simp [hallb]
  · rw [BNode.execute]
    simp only [hst, Bool.false_eq_true, if_false]
    rw [execParChildren_no_fail children hno]
    have hallb : children.all (fun c => (parChildStep c).1.isCompleted) = false := by
      obtain ⟨c, hcmem, hcinc⟩ := hex
      rw [List.all_eq_false]
      exact ⟨c, hcmem, by simp [hcinc]⟩
    simp [hallb]

theorem claimC3_witness :
    BNode.execute (BNode.control 9 CompType.parallel BNodeState.notExecute
        0 0 [leafSucc 1, leafFail 2, leafExec 3]) =
      (BNode.control 9 CompType.parallel BNodeState.fail 0 0
        [BNode.action 1 1 BNodeState.succ 0 0 (some handlerSucc),
         BNode.action 2 2 BNodeState.fail 0 0 (some handlerFail),
         leafExec 3],
       [1, 2]) :=
  (claimC3_parallel_execute 9 BNodeState.notExecute 0 0
      [leafSucc 1, leafFail 2, leafExec 3] rfl).1
    [leafSucc 1] (leafFail 2) [leafExec 3] rfl
    (by
      intro c hc
      rw [List.mem_singleton] at hc
      subst hc
      intro hff
      exact absurd hff.2 (by decide))
    ⟨rfl, rfl⟩

/-- An already-Succeeded leaf whose handler reports Executing, used to
exhibit that AgentBNode.Execute does not gate on completion. -/
def leafC4 : BNode :=
  BNode.action 7 3 BNodeState.succ 0 0 (some handlerExec)

/-- Claim C4 counterexample: executing an already-completed (Succeeded)
leaf does invoke its handler (the trace records leaf 7) and does overwrite
the stored state with whatever the handler returns. -/
theorem claimC4_counterexample :
    leafC4.isCompleted = true ∧
    (leafC4.execute).2 = [7] ∧
    (leafC4.execute).1.getState = BNodeState.executing :=
  ⟨rfl, rfl, rfl⟩

/-- Claim C4 as amended: AgentBNode.Execute never consults the completion
state: whenever a listener is present it is invoked exactly once and its
returned state is stored, even on a completed node; with a nil listener
nothing happens.  Completed leaves are shielded from re-execution only by
their composite parents, which skip completed children. -/
theorem claimC4_leaf_execute (nodeId actionId : Nat) (st : BNodeState)
    (step maxStep : Nat) (h : BNodeState → BNodeState) :
    BNode.execute (BNode.action nodeId actionId st step maxStep (some h)) =
      (BNode.action nodeId actionId (h st) step maxStep (some h),
       [nodeId]) ∧
    BNode.execute (BNode.action nodeId actionId st step maxStep none) =
      (BNode.action nodeId actionId st step maxStep none, []) :=
  ⟨rfl, rfl⟩

/-- Claim C7: executing a tree whose (composite) root is already completed
is a no-op: the whole tree value, hence every descendant state and step
counter, is unchanged and no leaf handler runs, however many times Execute
is called. -/
theorem claimC7_tree_idempotent (t : BehaviorTree) (nodeId : Nat)
    (ct : CompType) (st : BNodeState) (step maxStep : Nat)
    (children : List BNode)
    (hroot : t.rootNode = BNode.control nodeId ct st step maxStep children)
    (hst : t.rootNode.isCompleted = true) :
    t.execute = (t, []) ∧ ∀ n, BehaviorTree.execN n t = t := by
  rw [hroot] at hst
  have hstb : st.isCompleted = true := by
    simpa [BNode.isCompleted, BNode.getState] using hst
  have hex : t.rootNode.execute = (t.rootNode, []) := by
    rw [hroot, BNode.execute.eq_def]
    simp [hstb]
  have hexec : t.execute = (t, []) := by
    unfold BehaviorTree.execute
    rw [hex]
  refine ⟨hexec, fun n => ?_⟩
  induction n with
  | zero => rfl
  | succ k ih =>
    rw [BehaviorTree.execN, hexec]
    exact ih

def treeC7 : BehaviorTree :=
  { treeId := 7,
    rootNode := BNode.control 1 CompType.sequence BNodeState.succ 0 0
      [leafExec 2] }

theorem claimC7_witness :
    treeC7.execute = (treeC7, []) ∧ BehaviorTree.execN 3 treeC7 = treeC7 :=
  ⟨(claimC7_tree_idempotent treeC7 1 CompType.sequence BNodeState.succ 0 0
      [leafExec 2] rfl rfl).1,
   (claimC7_tree_idempotent treeC7 1 CompType.sequence BNodeState.succ 0 0
      [leafExec 2] rfl rfl).2 3⟩

theorem seq_empty_execN (nodeId step maxStep k : Nat) :
    BNode.execN k (BNode.control nodeId CompType.sequence
        BNodeState.executing step maxStep []) =
      BNode.control nodeId CompType.sequence BNodeState.executing step
        maxStep [] := by
  induction k with
  | zero => rfl
  | succ n ih =>
    rw [BNode.execN]
    exact ih

theorem sel_empty_execN (nodeId step maxStep k : Nat) :
    BNode.execN k (BNode.control nodeId CompType.select
        BNodeState.executing step maxStep []) =
      BNode.control nodeId CompType.select BNodeState.executing step
        maxStep [] := by
  induction k with
  | zero => rfl
  | succ n ih =>
    rw [BNode.execN]
    exact ih

theorem tree_seq_empty_execN (treeId k : Nat) :
    BehaviorTree.execN k
        ⟨treeId, BNode.control 1 CompType.sequence BNodeState.executing
          0 0 []⟩ =
      ⟨treeId, BNode.control 1 CompType.sequence BNodeState.executing
        0 0 []⟩ := by
  induction k with
  | zero => rfl
  | succ n ih =>
    rw [BehaviorTree.execN]
    exact ih

/-- Claim C10: an empty sequence or select node is set to Executing by
every tick and never completes; an empty parallel node Succeeds on its
first tick; and a freshly constructed tree, whose root is an empty
sequence node, stays Executing (never completed) under any number of
ticks. -/
theorem claimC10_empty_composites (nodeId step maxStep : Nat)
    (st : BNodeState) (hst : st.isCompleted = false) :
    (∀ k, 1 ≤ k →
      (BNode.execN k (BNode.control nodeId CompType.sequence st step
        maxStep [])).getState = BNodeState.executing) ∧
    (∀ k, 1 ≤ k →
      (BNode.execN k (BNode.control nodeId CompType.select st step
        maxStep [])).getState = BNodeState.executing) ∧
    (BNode.execute (BNode.control nodeId CompType.parallel st step
      maxStep [])).1.getState = BNodeState.succ ∧
    (∀ k treeId, 1 ≤ k →
      (BehaviorTree.execN k (newBehaviorTree treeId)).rootNode.getState =
          BNodeState.executing ∧
      (BehaviorTree.execN k (newBehaviorTree treeId)).rootNode.isCompleted =
          false) := by
  have hseq1 : (BNode.execute (BNode.control nodeId CompType.sequence st
      step maxStep [])).1 = BNode.control nodeId CompType.sequence
      BNodeState.executing step maxStep [] := by
    rw [BNode.execute]
    simp [hst, execSeqChildren]
  have hsel1 : (BNode.execute (BNode.control nodeId CompType.select st
      step maxStep [])).1 = BNode.control nodeId CompType.select
      BNodeState.executing step maxStep [] := by
    rw [BNode.execute]
    simp [hst, execSelChildren]
  refine ⟨fun k hk => ?_, fun k hk => ?_, ?_, fun k treeId hk => ?_⟩
  · obtain ⟨j, rfl⟩ : ∃ j, k = j + 1 := ⟨k - 1, by omega⟩
    rw [BNode.execN, hseq1, seq_empty_execN]
    rfl
  · obtain ⟨j, rfl⟩ : ∃ j, k = j + 1 := ⟨k - 1, by omega⟩
    rw [BNode.execN, hsel1, sel_empty_execN]
    rfl
  · rw [BNode.execute]
    simp [hst, execParChildren, BNode.getState]
  · obtain ⟨j, rfl⟩ : ∃ j, k = j + 1 := ⟨k - 1, by omega⟩
    rw [BehaviorTree.execN]
    have harg : ((newBehaviorTree treeId).execute).1 =
        ⟨treeId, BNode.control 1 CompType.sequence BNodeState.executing
          0 0 []⟩ := rfl
    rw [harg, tree_seq_empty_execN]
    exact ⟨rfl, rfl⟩

theorem claimC10_witness :
    (BNode.execN 2 (BNode.control 4 CompType.sequence
      BNodeState.notExecute 0 0 [])).getState = BNodeState.executing ∧
    (BNode.execN 1 (BNode.control 4 CompType.select
      BNodeState.notExecute 0 0 [])).getState = BNodeState.executing ∧
    (BNode.execute (BNode.control 4 CompType.parallel
      BNodeState.notExecute 0 0 [])).1.getState = BNodeState.succ ∧
    (BehaviorTree.execN 3 (newBehaviorTree 10)).rootNode.isCompleted =
      false := by
  have h := claimC10_empty_composites 4 0 0 BNodeState.notExecute rfl
  exact ⟨h.1 2 (by omega), h.2.1 1 (by omega), h.2.2.1,
    (h.2.2.2 3 10 (by omega)).2⟩
